import Mathlib

/-! # helmtestutil: the resource collector `NewKubernetesResources`

A shallow embedding of `helmtestutil/KubernetesResources.go`.

* Go `string` values are Lean `String`s. The separator is ASCII, so cutting a valid UTF-8
  text at characters and cutting it at bytes give the same pieces.
* A Go `map[string]T` is an association list with unique keys; a map-typed struct field is
  an `Option` of such a list, `none` being the nil map of a field that was never set.
* The testing handle `*testing.T` is the record of what was reported to it.
* The decoding functions of the schema library (`helm.UnmarshalK8SYamlE` at each target
  type) are external to the repository and are taken as a parameter.
* `helm.UnmarshalK8SYaml` is the library wrapper `require.NoError(t, UnmarshalK8SYamlE(..))`:
  on a decode error it reports the failure and calls `t.FailNow`, which stops the calling
  goroutine. A run that hits it returns no bundle.
-/

set_option autoImplicit false
set_option maxRecDepth 100000

namespace helmtestutil

/-! ## Strings: `strings.Index`, `strings.Count`, `strings.Split` -/

/-- Go `strings.Index(s, substr)`: the position of the first occurrence of `substr` in `s`,
`none` standing for `-1`. -/
def Index : List Char → List Char → Option Nat
  | [], substr => if substr = [] then some 0 else none
  | c :: cs, substr =>
    if substr.isPrefixOf (c :: cs) then some 0 else (Index cs substr).map (· + 1)

/-- The loop of Go `strings.Count` for a non-empty `substr`: count the non-overlapping
occurrences from the left. The first argument bounds the number of iterations. -/
def countLoop (substr : List Char) : Nat → List Char → Nat
  | 0, _ => 0
  | fuel + 1, s =>
    match Index s substr with
    | none => 0
    | some i => 1 + countLoop substr fuel (s.drop (i + substr.length))

/-- Go `strings.Count(s, substr)`. Every iteration of the loop consumes at least one
character of `s`, so `s.length` iterations are enough. -/
def Count (s substr : List Char) : Nat :=
  if substr = [] then s.length + 1 else countLoop substr s.length s

/-- The loop of Go `strings.genSplit`: at most `n` cuts, each at the first occurrence of
`sep` in what remains; the remainder is the last element. -/
def splitLoop (sep : List Char) : Nat → List Char → List (List Char)
  | 0, s => [s]
  | n + 1, s =>
    match Index s sep with
    | none => [s]
    | some m => s.take m :: splitLoop sep n (s.drop (m + sep.length))

/-- Go `strings.genSplit(s, sep, 0, -1)` on character lists: an empty separator explodes
`s` into its characters; otherwise `n = Count(s, sep) + 1`, capped at `len(s) + 1`, and the
loop makes at most `n - 1` cuts. -/
def genSplit (s sep : List Char) : List (List Char) :=
  if sep = [] then s.map (fun c => [c])
  else splitLoop sep (min (Count s sep + 1) (s.length + 1) - 1) s

/-- Go `strings.Split(s, sep)`. -/
def Split (s sep : String) : List String :=
  (genSplit s.data sep.data).map String.mk

/-- Whether a document text has a line that is exactly the YAML document-start marker
`---`, the lines of a text being what lies between its newline characters. -/
def hasMarkerLine (d : String) : Bool :=
  (Split d "\n").contains "---"

/-! ## Data model -/

/-- The discriminator `metav1.TypeMeta`. -/
structure TypeMeta where
  Kind : String
  APIVersion : String
  deriving DecidableEq, Repr

/-- The seventeen kinds that have a typed case in the `switch`, in source order. -/
inductive Kind
  | ClusterRole
  | ClusterRoleBinding
  | ConfigMap
  | CronJob
  | DaemonSet
  | Deployment
  | Job
  | PersistentVolumeClaim
  | Pod
  | PodDisruptionBudget
  | PodSecurityPolicy
  | Role
  | RoleBinding
  | Secret
  | Service
  | ServiceAccount
  | StatefulSet
  deriving DecidableEq, Repr

/-- The `case` label of a kind. -/
def Kind.label : Kind → String
  | .ClusterRole => "ClusterRole"
  | .ClusterRoleBinding => "ClusterRoleBinding"
  | .ConfigMap => "ConfigMap"
  | .CronJob => "CronJob"
  | .DaemonSet => "DaemonSet"
  | .Deployment => "Deployment"
  | .Job => "Job"
  | .PersistentVolumeClaim => "PersistentVolumeClaim"
  | .Pod => "Pod"
  | .PodDisruptionBudget => "PodDisruptionBudget"
  | .PodSecurityPolicy => "PodSecurityPolicy"
  | .Role => "Role"
  | .RoleBinding => "RoleBinding"
  | .Secret => "Secret"
  | .Service => "Service"
  | .ServiceAccount => "ServiceAccount"
  | .StatefulSet => "StatefulSet"

/-- The typed cases that decode with `helm.UnmarshalK8SYamlE` followed by
`assert.NoError(t, e, "<Kind> failed to parse: "+v)`; the other thirteen call
`helm.UnmarshalK8SYaml`. -/
def Kind.decodesWithE : Kind → Bool
  | .CronJob => true
  | .DaemonSet => true
  | .Deployment => true
  | .PersistentVolumeClaim => true
  | _ => false

/-- The entries of a non-nil Go `map[string]T`, keys unique. -/
abbrev Entries (ρ : Type) := List (String × ρ)

/-- Go map assignment `m[k] = v`: overwrite the entry of `k` when there is one, add an
entry otherwise. -/
def Entries.set {ρ : Type} : Entries ρ → String → ρ → Entries ρ
  | [], k, v => [(k, v)]
  | (k', v') :: rest, k, v =>
    if k' = k then (k, v) :: rest else (k', v') :: Entries.set rest k v

/-- A map-typed struct field: `none` is the nil map, `some es` a map made with `make`. -/
abbrev GoMap (ρ : Type) := Option (Entries ρ)

/-- Go `len(m)`; the nil map has length zero. -/
def GoMap.len {ρ : Type} : GoMap ρ → Nat
  | none => 0
  | some es => es.length

/-- The struct `KubernetesResources`. -/
structure KubernetesResources (ρ : Type) where
  ClusterRoles : GoMap ρ
  ClusterRoleBindings : GoMap ρ
  ConfigMaps : GoMap ρ
  CronJobs : GoMap ρ
  DaemonSets : GoMap ρ
  Deployments : GoMap ρ
  Jobs : GoMap ρ
  PersistentVolumeClaims : GoMap ρ
  Pods : GoMap ρ
  Pdbs : GoMap ρ
  Psps : GoMap ρ
  Roles : GoMap ρ
  RoleBindings : GoMap ρ
  Secrets : GoMap ρ
  Services : GoMap ρ
  ServiceAccounts : GoMap ρ
  Statefulsets : GoMap ρ
  deriving DecidableEq, Repr

/-- The field of the bundle that belongs to a kind. -/
def KubernetesResources.mapping {ρ : Type} (b : KubernetesResources ρ) : Kind → GoMap ρ
  | .ClusterRole => b.ClusterRoles
  | .ClusterRoleBinding => b.ClusterRoleBindings
  | .ConfigMap => b.ConfigMaps
  | .CronJob => b.CronJobs
  | .DaemonSet => b.DaemonSets
  | .Deployment => b.Deployments
  | .Job => b.Jobs
  | .PersistentVolumeClaim => b.PersistentVolumeClaims
  | .Pod => b.Pods
  | .PodDisruptionBudget => b.Pdbs
  | .PodSecurityPolicy => b.Psps
  | .Role => b.Roles
  | .RoleBinding => b.RoleBindings
  | .Secret => b.Secrets
  | .Service => b.Services
  | .ServiceAccount => b.ServiceAccounts
  | .StatefulSet => b.Statefulsets

/-- The seventeen local maps of `NewKubernetesResources`, each created with `make`. -/
structure Locals (ρ : Type) where
  clusterRoles : Entries ρ
  clusterRoleBindings : Entries ρ
  configMaps : Entries ρ
  cronJobs : Entries ρ
  daemonSets : Entries ρ
  deployments : Entries ρ
  jobs : Entries ρ
  persistentVolumeClaims : Entries ρ
  pods : Entries ρ
  pdbs : Entries ρ
  psps : Entries ρ
  roles : Entries ρ
  roleBindings : Entries ρ
  secrets : Entries ρ
  services : Entries ρ
  serviceAccounts : Entries ρ
  statefulsets : Entries ρ
  deriving DecidableEq, Repr

/-- The seventeen `make(map[string]T)` statements. -/
def Locals.make {ρ : Type} : Locals ρ :=
  ⟨[], [], [], [], [], [], [], [], [], [], [], [], [], [], [], [], []⟩

/-- The local map a typed case writes to. -/
def Locals.get {ρ : Type} (m : Locals ρ) : Kind → Entries ρ
  | .ClusterRole => m.clusterRoles
  | .ClusterRoleBinding => m.clusterRoleBindings
  | .ConfigMap => m.configMaps
  | .CronJob => m.cronJobs
  | .DaemonSet => m.daemonSets
  | .Deployment => m.deployments
  | .Job => m.jobs
  | .PersistentVolumeClaim => m.persistentVolumeClaims
  | .Pod => m.pods
  | .PodDisruptionBudget => m.pdbs
  | .PodSecurityPolicy => m.psps
  | .Role => m.roles
  | .RoleBinding => m.roleBindings
  | .Secret => m.secrets
  | .Service => m.services
  | .ServiceAccount => m.serviceAccounts
  | .StatefulSet => m.statefulsets

/-- The assignment `<local map of k>[name] = resource` of a typed case. -/
def Locals.assign {ρ : Type} (m : Locals ρ) (k : Kind) (name : String) (resource : ρ) :
    Locals ρ :=
  match k with
  | .ClusterRole => { m with clusterRoles := m.clusterRoles.set name resource }
  | .ClusterRoleBinding =>
    { m with clusterRoleBindings := m.clusterRoleBindings.set name resource }
  | .ConfigMap => { m with configMaps := m.configMaps.set name resource }
  | .CronJob => { m with cronJobs := m.cronJobs.set name resource }
  | .DaemonSet => { m with daemonSets := m.daemonSets.set name resource }
  | .Deployment => { m with deployments := m.deployments.set name resource }
  | .Job => { m with jobs := m.jobs.set name resource }
  | .PersistentVolumeClaim =>
    { m with persistentVolumeClaims := m.persistentVolumeClaims.set name resource }
  | .Pod => { m with pods := m.pods.set name resource }
  | .PodDisruptionBudget => { m with pdbs := m.pdbs.set name resource }
  | .PodSecurityPolicy => { m with psps := m.psps.set name resource }
  | .Role => { m with roles := m.roles.set name resource }
  | .RoleBinding => { m with roleBindings := m.roleBindings.set name resource }
  | .Secret => { m with secrets := m.secrets.set name resource }
  | .Service => { m with services := m.services.set name resource }
  | .ServiceAccount => { m with serviceAccounts := m.serviceAccounts.set name resource }
  | .StatefulSet => { m with statefulsets := m.statefulsets.set name resource }

/-! ## The testing handle -/

/-- A failure reported to `*testing.T`. -/
inductive Failure
  /-- `assert.NoError` or `require.NoError` received the non-nil error `err`; `msgAndArgs`
  is the caller's message, when one was passed. -/
  | NoError (err : String) (msgAndArgs : Option String)
  /-- `t.Errorf` with the formatted message. -/
  | Errorf (message : String)
  deriving DecidableEq, Repr

/-- What has been reported to `*testing.T`: the failures and the log lines, in order. -/
structure TestingT where
  failures : List Failure
  logs : List String
  deriving DecidableEq, Repr

/-- Go `t.Errorf(...)` with the message already formatted. -/
def TestingT.Errorf (t : TestingT) (message : String) : TestingT :=
  { t with failures := t.failures ++ [Failure.Errorf message] }

/-- Go `t.Logf(...)` with the message already formatted. -/
def TestingT.Logf (t : TestingT) (message : String) : TestingT :=
  { t with logs := t.logs ++ [message] }

/-- Testify `assert.NoError(t, err, msgAndArgs...)`: a nil error reports nothing, a non-nil
one is reported as a failure and execution goes on. -/
def NoError (t : TestingT) (err : Option String) (msgAndArgs : Option String) : TestingT :=
  match err with
  | none => t
  | some e => { t with failures := t.failures ++ [Failure.NoError e msgAndArgs] }

/-! ## The schema library -/

/-- The external decoders. `helm.UnmarshalK8SYamlE(t, v, &target)` fills `target` as far as
it can and returns an error or nil; starting from a zero-valued target it is a function of
the document text. `UnmarshalTypeMeta` is the call with a `metav1.TypeMeta` target,
`UnmarshalResource k` the call with the typed struct of kind `k`, and `Name` reads
`resource.Name`. -/
structure SchemaLibrary (ρ : Type) where
  UnmarshalTypeMeta : String → TypeMeta × Option String
  UnmarshalResource : Kind → String → ρ × Option String
  Name : ρ → String

/-! ## `NewKubernetesResources` -/

/-- The document separator passed to `strings.Split`. -/
def separator : String := "\n---\n"

/-- Where the `switch metadata.Kind` goes. -/
inductive Branch
  | typed (k : Kind)
  | list
  | default
  deriving DecidableEq, Repr

/-- The `switch metadata.Kind` statement: the case labels in source order. -/
def switchKind (kind : String) : Branch :=
  if kind = "ClusterRole" then .typed .ClusterRole
  else if kind = "ClusterRoleBinding" then .typed .ClusterRoleBinding
  else if kind = "ConfigMap" then .typed .ConfigMap
  else if kind = "CronJob" then .typed .CronJob
  else if kind = "DaemonSet" then .typed .DaemonSet
  else if kind = "Deployment" then .typed .Deployment
  else if kind = "Job" then .typed .Job
  else if kind = "List" then .list
  else if kind = "PersistentVolumeClaim" then .typed .PersistentVolumeClaim
  else if kind = "Pod" then .typed .Pod
  else if kind = "PodDisruptionBudget" then .typed .PodDisruptionBudget
  else if kind = "PodSecurityPolicy" then .typed .PodSecurityPolicy
  else if kind = "Role" then .typed .Role
  else if kind = "RoleBinding" then .typed .RoleBinding
  else if kind = "Secret" then .typed .Secret
  else if kind = "Service" then .typed .Service
  else if kind = "ServiceAccount" then .typed .ServiceAccount
  else if kind = "StatefulSet" then .typed .StatefulSet
  else .default

/-- The message of the `t.Errorf` call in the `default` case. -/
def unknownKindMessage (metadata : TypeMeta) (v : String) : String :=
  "Found unknown kind '" ++ metadata.APIVersion ++ "/" ++ metadata.Kind ++ "' in content\n"
    ++ v ++ "\n This can be caused by an incorrect k8s resource type in the helm template or when using a custom resource type."

/-- The message passed to `assert.NoError` by the four cases that decode with
`helm.UnmarshalK8SYamlE`. -/
def failedToParseMessage (k : Kind) (v : String) : String :=
  k.label ++ " failed to parse: " ++ v

/-- A typed case of the `switch`. The four kinds of `Kind.decodesWithE` report a decode error
with `assert.NoError` and go on to the map assignment. The other thirteen call
`helm.UnmarshalK8SYaml`, which is `require.NoError(t, UnmarshalK8SYamlE(...))`: a decode
error is reported and `t.FailNow` stops the run (`none`), before the map assignment. -/
def typedCase {ρ : Type} (lib : SchemaLibrary ρ) (k : Kind) (v : String) (t : TestingT)
    (m : Locals ρ) : TestingT × Option (Locals ρ) :=
  let decoded := lib.UnmarshalResource k v
  let resource := decoded.1
  let e := decoded.2
  if k.decodesWithE then
    (NoError t e (some (failedToParseMessage k v)), some (m.assign k (lib.Name resource) resource))
  else
    match e with
    | some _ => (NoError t e none, none)
    | none => (t, some (m.assign k (lib.Name resource) resource))

/-- The body of the `for _, v := range separateFiles` loop. The second component is `none`
when `t.FailNow` stopped the run. -/
def processDocument {ρ : Type} (lib : SchemaLibrary ρ) (v : String) (t : TestingT)
    (m : Locals ρ) : TestingT × Option (Locals ρ) :=
  let decoded := lib.UnmarshalTypeMeta v
  let metadata := decoded.1
  let err := decoded.2
  let t := NoError t err none
  match switchKind metadata.Kind with
  | .typed k => typedCase lib k v t m
  | .list => (t, some m)
  | .default =>
    if metadata.Kind ≠ "" ∨ metadata.APIVersion ≠ "" then
      (t.Errorf (unknownKindMessage metadata v), some m)
    else
      (t.Logf ("Skipping empty resource: " ++ v), some m)

/-- The `for` loop over the document texts. -/
def processDocuments {ρ : Type} (lib : SchemaLibrary ρ) :
    List String → TestingT → Locals ρ → TestingT × Option (Locals ρ)
  | [], t, m => (t, some m)
  | v :: vs, t, m =>
    match processDocument lib v t m with
    | (t', some m') => processDocuments lib vs t' m'
    | (t', none) => (t', none)

/-- The `return KubernetesResources{...}` statement: sixteen fields are set from the local
maps; `Psps` is not among them and keeps its zero value, the nil map. -/
def returnBundle {ρ : Type} (m : Locals ρ) : KubernetesResources ρ where
  ClusterRoles := some m.clusterRoles
  ClusterRoleBindings := some m.clusterRoleBindings
  ConfigMaps := some m.configMaps
  DaemonSets := some m.daemonSets
  Deployments := some m.deployments
  CronJobs := some m.cronJobs
  Jobs := some m.jobs
  PersistentVolumeClaims := some m.persistentVolumeClaims
  Pods := some m.pods
  Pdbs := some m.pdbs
  Psps := none
  Roles := some m.roles
  RoleBindings := some m.roleBindings
  Secrets := some m.secrets
  Services := some m.services
  ServiceAccounts := some m.serviceAccounts
  Statefulsets := some m.statefulsets

/-- The result of a call: what the testing handle holds afterwards, and the returned bundle,
`none` when `t.FailNow` stopped the run before the `return`. -/
structure Outcome (ρ : Type) where
  t : TestingT
  bundle : Option (KubernetesResources ρ)
  deriving DecidableEq, Repr

/-- What follows the loop: the `return` statement, unless the run was stopped. -/
def finish {ρ : Type} : TestingT × Option (Locals ρ) → Outcome ρ
  | (t, some m) => ⟨t, some (returnBundle m)⟩
  | (t, none) => ⟨t, none⟩

/-- The function `NewKubernetesResources(t, helmOutput)`. -/
def NewKubernetesResources {ρ : Type} (lib : SchemaLibrary ρ) (t : TestingT)
    (helmOutput : String) : Outcome ρ :=
  let separateFiles := Split helmOutput separator
  finish (processDocuments lib separateFiles t Locals.make)

/-! ## An instance of the schema library for the examples

The table below gives, for each example document, what `helm.UnmarshalK8SYamlE` returns on
it: the YAML is converted to JSON and `json.Unmarshal` fills the target. A JSON value that
does not fit its field is skipped, the remaining fields are still filled, and the first
such mismatch is returned as the error. The empty text decodes to nothing without error. -/

/-- A decoded object in the examples: its `metadata.name` and the rest of what was decoded. -/
structure Manifest where
  Name : String
  Content : String
  deriving DecidableEq, Repr

/-- A well-formed PodSecurityPolicy named `psp1`. -/
def pspDoc : String :=
  "apiVersion: policy/v1beta1\nkind: PodSecurityPolicy\nmetadata:\n  name: psp1\nspec:\n  privileged: false"

/-- A second well-formed PodSecurityPolicy named `psp1`, with another content. -/
def pspDoc2 : String :=
  "apiVersion: policy/v1beta1\nkind: PodSecurityPolicy\nmetadata:\n  name: psp1\nspec:\n  privileged: true"

/-- A well-formed Secret named `sec1`. -/
def secretDoc : String :=
  "apiVersion: v1\nkind: Secret\nmetadata:\n  name: sec1\ntype: Opaque"

/-- A document of a kind that has no case in the `switch`. -/
def frobnicatorDoc : String :=
  "apiVersion: v1\nkind: Frobnicator\nmetadata:\n  name: f"

/-- A well-formed List. -/
def listDoc : String :=
  "apiVersion: v1\nkind: List\nitems: []"

/-- A List whose `apiVersion` is a number: the discriminator decode returns an error and
still fills `kind`. -/
def listNumberDoc : String :=
  "apiVersion: 123\nkind: List"

/-- A document with an `apiVersion` and no `kind`. -/
def apiVersionOnlyDoc : String :=
  "apiVersion: v1"

/-- A ConfigMap whose `data` is a number: the typed decode returns an error. -/
def configMapBadDoc : String :=
  "apiVersion: v1\nkind: ConfigMap\nmetadata:\n  name: cm1\ndata: 5"

/-- A CronJob whose `spec` is a number: the typed decode returns an error. -/
def cronJobBadDoc : String :=
  "apiVersion: batch/v1beta1\nkind: CronJob\nmetadata:\n  name: cj1\nspec: 5"

/-- A CronJob whose `apiVersion` is a number: both decodes return an error, and both still
fill the other fields. -/
def cronJobNumberDoc : String :=
  "apiVersion: 123\nkind: CronJob\nmetadata:\n  name: x"

/-- A ConfigMap whose `apiVersion` is a number: both decodes return an error. -/
def configMapNumberDoc : String :=
  "apiVersion: 123\nkind: ConfigMap\nmetadata:\n  name: cm2"

/-- The discriminator decode of the example documents. -/
def exampleTypeMeta : List (String × (TypeMeta × Option String)) :=
  [ ("", (⟨"", ""⟩, none)),
    (pspDoc, (⟨"PodSecurityPolicy", "policy/v1beta1"⟩, none)),
    (pspDoc2, (⟨"PodSecurityPolicy", "policy/v1beta1"⟩, none)),
    (secretDoc, (⟨"Secret", "v1"⟩, none)),
    (frobnicatorDoc, (⟨"Frobnicator", "v1"⟩, none)),
    (listDoc, (⟨"List", "v1"⟩, none)),
    (listNumberDoc, (⟨"List", ""⟩,
      some "json: cannot unmarshal number into Go struct field TypeMeta.apiVersion of type string")),
    (apiVersionOnlyDoc, (⟨"", "v1"⟩, none)),
    (configMapBadDoc, (⟨"ConfigMap", "v1"⟩, none)),
    (cronJobBadDoc, (⟨"CronJob", "batch/v1beta1"⟩, none)),
    (cronJobNumberDoc, (⟨"CronJob", ""⟩,
      some "json: cannot unmarshal number into Go struct field TypeMeta.apiVersion of type string")),
    (configMapNumberDoc, (⟨"ConfigMap", ""⟩,
      some "json: cannot unmarshal number into Go struct field TypeMeta.apiVersion of type string")) ]

/-- The decode of the example documents into the typed struct of their own kind. -/
def exampleResource : List (String × (Manifest × Option String)) :=
  [ (pspDoc, (⟨"psp1", "privileged: false"⟩, none)),
    (pspDoc2, (⟨"psp1", "privileged: true"⟩, none)),
    (secretDoc, (⟨"sec1", "type: Opaque"⟩, none)),
    (configMapBadDoc, (⟨"cm1", ""⟩,
      some "json: cannot unmarshal number into Go struct field ConfigMap.data of type map[string]string")),
    (cronJobBadDoc, (⟨"cj1", ""⟩,
      some "json: cannot unmarshal number into Go struct field CronJob.spec of type v1beta1.CronJobSpec")),
    (cronJobNumberDoc, (⟨"x", ""⟩,
      some "json: cannot unmarshal number into Go struct field CronJob.apiVersion of type string")),
    (configMapNumberDoc, (⟨"cm2", ""⟩,
      some "json: cannot unmarshal number into Go struct field ConfigMap.apiVersion of type string")) ]

/-- The schema library of the examples. A document that is not in the tables decodes to
nothing, as the empty text does. -/
def exampleLibrary : SchemaLibrary Manifest where
  UnmarshalTypeMeta v := (exampleTypeMeta.lookup v).getD (⟨"", ""⟩, none)
  UnmarshalResource _ v := (exampleResource.lookup v).getD (⟨"", ""⟩, none)
  Name resource := resource.Name

/-- A testing handle to which nothing has been reported. -/
def freshT : TestingT := ⟨[], []⟩

/-! ## `strings.Split` -/

theorem Index_cons_pos (c : Char) (cs sep : List Char)
    (h : sep.isPrefixOf (c :: cs) = true) : Index (c :: cs) sep = some 0 := by
  simp [Index, h]

theorem Index_cons_neg (c : Char) (cs sep : List Char)
    (h : ¬ sep.isPrefixOf (c :: cs) = true) :
    Index (c :: cs) sep = (Index cs sep).map (· + 1) := by
  simp [Index, h]

theorem Index_bound : ∀ (s sep : List Char) (i : Nat), Index s sep = some i →
    i + sep.length ≤ s.length := by
  intro s
  induction s with
  | nil =>
    intro sep i h
    by_cases hs : sep = []
    · simp only [Index, hs, if_true, Option.some.injEq] at h
      simp [hs, ← h]
    · simp [Index, hs] at h
  | cons c cs ih =>
    intro sep i h
    by_cases hp : sep.isPrefixOf (c :: cs) = true
    · rw [Index_cons_pos c cs sep hp, Option.some.injEq] at h
      have hle := (List.isPrefixOf_iff_prefix.mp hp).length_le
      omega
    · rw [Index_cons_neg c cs sep hp, Option.map_eq_some'] at h
      obtain ⟨j, hj, hji⟩ := h
      have := ih sep j hj
      simp only [List.length_cons]
      omega

/-- The position found by `Index` is an occurrence: `s` is the text before it, the separator,
and the text after it. -/
theorem Index_some : ∀ (s sep : List Char) (i : Nat), Index s sep = some i →
    s = s.take i ++ (sep ++ s.drop (i + sep.length)) := by
  intro s
  induction s with
  | nil =>
    intro sep i h
    by_cases hs : sep = []
    · simp [hs]
    · simp [Index, hs] at h
  | cons c cs ih =>
    intro sep i h
    by_cases hp : sep.isPrefixOf (c :: cs) = true
    · rw [Index_cons_pos c cs sep hp, Option.some.injEq] at h
      have hpre := List.prefix_iff_eq_append.mp (List.isPrefixOf_iff_prefix.mp hp)
      subst h
      simpa using hpre.symm
    · rw [Index_cons_neg c cs sep hp, Option.map_eq_some'] at h
      obtain ⟨j, hj, hji⟩ := h
      subst hji
      have := ih sep j hj
      rw [show j + 1 + sep.length = (j + sep.length) + 1 by omega]
      simp only [List.take_succ_cons, List.drop_succ_cons, List.cons_append]
      rw [← this]

/-- When `Index` finds nothing, the separator does not occur. -/
theorem Index_none : ∀ (s sep : List Char), Index s sep = none → ¬ sep <:+: s := by
  intro s
  induction s with
  | nil =>
    intro sep h hin
    by_cases hs : sep = []
    · simp [Index, hs] at h
    · exact hs (List.eq_nil_of_infix_nil hin)
  | cons c cs ih =>
    intro sep h hin
    by_cases hp : sep.isPrefixOf (c :: cs) = true
    · simp [Index, hp] at h
    · rw [Index_cons_neg c cs sep hp, Option.map_eq_none'] at h
      rcases List.infix_cons_iff.mp hin with h1 | h1
      · exact hp (List.isPrefixOf_iff_prefix.mpr h1)
      · exact ih sep h h1

/-- The position found by `Index` is the first occurrence: the separator does not occur in
the text before it, even when that text is followed by all but the last character of the
separator. -/
theorem Index_first : ∀ (s sep : List Char) (i : Nat), sep ≠ [] → Index s sep = some i →
    ¬ sep <:+: s.take i ++ sep.dropLast := by
  intro s
  induction s with
  | nil =>
    intro sep i hs h
    simp [Index, hs] at h
  | cons c cs ih =>
    intro sep i hs h hin
    by_cases hp : sep.isPrefixOf (c :: cs) = true
    · rw [Index_cons_pos c cs sep hp, Option.some.injEq] at h
      subst h
      have hlen := hin.length_le
      have hpos : 0 < sep.length := List.length_pos.mpr hs
      simp only [List.take_zero, List.nil_append, List.length_dropLast] at hlen
      omega
    · rw [Index_cons_neg c cs sep hp, Option.map_eq_some'] at h
      obtain ⟨j, hj, hji⟩ := h
      subst hji
      simp only [List.take_succ_cons, List.cons_append] at hin
      rcases List.infix_cons_iff.mp hin with h1 | h1
      · apply hp
        apply List.isPrefixOf_iff_prefix.mpr
        refine h1.trans ?_
        have hcs := Index_some cs sep j hj
        have h2 : cs.take j ++ sep.dropLast <+: cs := by
          conv_rhs => rw [hcs]
          exact (List.prefix_append_right_inj _).mpr
            ((List.dropLast_prefix sep).trans (List.prefix_append _ _))
        exact List.cons_prefix_cons.mpr ⟨rfl, h2⟩
      · exact ih sep j hs hj h1

theorem countLoop_le (sep : List Char) (hs : sep ≠ []) : ∀ (fuel : Nat) (s : List Char),
    countLoop sep fuel s ≤ s.length := by
  intro fuel
  induction fuel with
  | zero => intro s; simp [countLoop]
  | succ n ih =>
    intro s
    unfold countLoop
    cases h : Index s sep with
    | none => simp
    | some i =>
      have hb := Index_bound s sep i h
      have hr := ih (s.drop (i + sep.length))
      have hpos : 0 < sep.length := List.length_pos.mpr hs
      simp only [List.length_drop] at hr
      simp only
      omega

/-- For a non-empty separator the number of cuts `genSplit` allows is `Count(s, sep)`. -/
theorem genSplit_eq (s sep : List Char) (hs : sep ≠ []) :
    genSplit s sep = splitLoop sep (countLoop sep s.length s) s := by
  have hle := countLoop_le sep hs s.length s
  unfold genSplit Count
  rw [if_neg hs, if_neg hs]
  congr 1
  omega

theorem splitLoop_none (sep : List Char) (n : Nat) (s : List Char) (h : Index s sep = none) :
    splitLoop sep n s = [s] := by
  cases n with
  | zero => rfl
  | succ n => simp only [splitLoop, h]

theorem splitLoop_some (sep : List Char) (n : Nat) (s : List Char) (i : Nat)
    (h : Index s sep = some i) :
    splitLoop sep (n + 1) s = s.take i :: splitLoop sep n (s.drop (i + sep.length)) := by
  simp only [splitLoop, h]

theorem splitLoop_ne_nil (sep : List Char) (n : Nat) (s : List Char) :
    splitLoop sep n s ≠ [] := by
  cases n with
  | zero => simp [splitLoop]
  | succ n =>
    cases h : Index s sep with
    | none => simp [splitLoop, h]
    | some i => simp [splitLoop, h]

theorem intercalate_cons_cons (sep a b : List Char) (rest : List (List Char)) :
    sep.intercalate (a :: b :: rest) = a ++ (sep ++ sep.intercalate (b :: rest)) := by
  simp [List.intercalate, List.intersperse]

theorem intercalate_single (sep a : List Char) : sep.intercalate [a] = a := by
  simp [List.intercalate, List.intersperse]

/-- Joining the pieces with the separator gives the text back, whatever the number of cuts. -/
theorem splitLoop_join (sep : List Char) : ∀ (n : Nat) (s : List Char),
    sep.intercalate (splitLoop sep n s) = s := by
  intro n
  induction n with
  | zero => intro s; exact intercalate_single sep s
  | succ n ih =>
    intro s
    cases h : Index s sep with
    | none => rw [splitLoop_none sep _ s h]; exact intercalate_single sep s
    | some i =>
      rw [splitLoop_some sep n s i h]
      have hne := splitLoop_ne_nil sep n (s.drop (i + sep.length))
      have hj := ih (s.drop (i + sep.length))
      cases hr : splitLoop sep n (s.drop (i + sep.length)) with
      | nil => exact absurd hr hne
      | cons b rest =>
        rw [hr] at hj
        rw [intercalate_cons_cons, hj]
        exact (Index_some s sep i h).symm

/-- With `Count(s, sep)` cuts no piece contains the separator. -/
theorem splitLoop_no_separator (sep : List Char) (hs : sep ≠ []) :
    ∀ (fuel : Nat) (s : List Char), s.length ≤ fuel →
      ∀ d ∈ splitLoop sep (countLoop sep fuel s) s, ¬ sep <:+: d := by
  intro fuel
  induction fuel with
  | zero =>
    intro s hlen d hd hin
    have hnil : s = [] := List.length_eq_zero.mp (Nat.le_zero.mp hlen)
    subst hnil
    simp only [countLoop, splitLoop, List.mem_singleton] at hd
    subst hd
    exact hs (List.eq_nil_of_infix_nil hin)
  | succ n ih =>
    intro s hlen d hd hin
    cases h : Index s sep with
    | none =>
      rw [splitLoop_none sep _ s h, List.mem_singleton] at hd
      subst hd
      exact Index_none d sep h hin
    | some i =>
      have hc : countLoop sep (n + 1) s = countLoop sep n (s.drop (i + sep.length)) + 1 := by
        simp only [countLoop, h]
        omega
      rw [hc, splitLoop_some sep _ s i h, List.mem_cons] at hd
      rcases hd with hd | hd
      · subst hd
        apply Index_first s sep i hs h
        obtain ⟨a, b, hab⟩ := hin
        exact ⟨a, b ++ sep.dropLast, by simp only [← List.append_assoc, hab]⟩
      · have hb := Index_bound s sep i h
        have hpos : 0 < sep.length := List.length_pos.mpr hs
        refine ih (s.drop (i + sep.length)) ?_ d hd hin
        simp only [List.length_drop]
        omega

/-- Every cut is at the first occurrence of the separator in what remains: a piece that is
followed by a separator does not contain it, even when extended by all but the last
character of the separator. -/
theorem splitLoop_first (sep : List Char) (hs : sep ≠ []) :
    ∀ (n : Nat) (s : List Char), ∀ d ∈ (splitLoop sep n s).dropLast,
      ¬ sep <:+: d ++ sep.dropLast := by
  intro n
  induction n with
  | zero => intro s d hd; simp [splitLoop] at hd
  | succ n ih =>
    intro s d hd
    cases h : Index s sep with
    | none => simp [splitLoop_none sep _ s h] at hd
    | some i =>
      rw [splitLoop_some sep n s i h] at hd
      have hne := splitLoop_ne_nil sep n (s.drop (i + sep.length))
      cases hr : splitLoop sep n (s.drop (i + sep.length)) with
      | nil => exact absurd hr hne
      | cons b rest =>
        rw [hr, List.dropLast_cons₂, List.mem_cons] at hd
        rcases hd with hd | hd
        · subst hd
          exact Index_first s sep i hs h
        · exact ih (s.drop (i + sep.length)) d (by rw [hr]; exact hd)

/-- A text without the separator is a single document. -/
theorem genSplit_single (s sep : List Char) (hs : sep ≠ []) (h : ¬ sep <:+: s) :
    genSplit s sep = [s] := by
  rw [genSplit_eq s sep hs]
  cases hi : Index s sep with
  | none => exact splitLoop_none sep _ s hi
  | some i =>
    exfalso
    apply h
    have := Index_some s sep i hi
    exact ⟨s.take i, s.drop (i + sep.length), by rw [List.append_assoc]; exact this.symm⟩

theorem separator_data_ne_nil : separator.data ≠ [] := by decide

theorem Split_single (input : String) (h : ¬ separator.data <:+: input.data) :
    Split input separator = [input] := by
  unfold Split
  rw [genSplit_single input.data separator.data separator_data_ne_nil h]
  rfl

theorem intercalate_go_data (s : String) : ∀ (l : List String) (acc : String),
    (String.intercalate.go acc s l).data
      = acc.data ++ (l.map (fun a => s.data ++ a.data)).flatten := by
  intro l
  induction l with
  | nil => intro acc; simp [String.intercalate.go]
  | cons a l ih =>
    intro acc
    simp only [String.intercalate.go, ih, String.data_append, List.map_cons,
      List.flatten_cons, List.append_assoc]

theorem intercalate_data_cons (sep : List Char) (a : String) : ∀ (l : List String),
    sep.intercalate ((a :: l).map String.data)
      = a.data ++ (l.map (fun b => sep ++ b.data)).flatten := by
  intro l
  induction l generalizing a with
  | nil => simp [List.intercalate, List.intersperse]
  | cons b l ih =>
    have := ih b
    simp only [List.map_cons] at this
    simp only [List.map_cons, intercalate_cons_cons, this, List.flatten_cons,
      List.append_assoc]

/-- Joining strings is joining their characters. -/
theorem intercalate_data (s : String) (l : List String) :
    (String.intercalate s l).data = s.data.intercalate (l.map String.data) := by
  cases l with
  | nil => simp [String.intercalate, List.intercalate]
  | cons a l =>
    rw [intercalate_data_cons]
    simp only [String.intercalate, intercalate_go_data]

theorem map_data_map_mk (l : List (List Char)) : (l.map String.mk).map String.data = l := by
  induction l with
  | nil => rfl
  | cons a l ih => simp only [List.map_cons, ih]

theorem Split_data (input : String) :
    (Split input separator).map String.data
      = splitLoop separator.data (countLoop separator.data input.data.length input.data)
          input.data := by
  unfold Split
  rw [map_data_map_mk, genSplit_eq _ _ separator_data_ne_nil]

/-! ## The `switch` and the maps -/

theorem switchKind_label (k : Kind) : switchKind k.label = Branch.typed k := by
  cases k <;> rfl

/-- The three ways the `switch` can go. -/
theorem switchKind_cases (s : String) :
    (∃ k : Kind, s = k.label ∧ switchKind s = Branch.typed k)
      ∨ (s = "List" ∧ switchKind s = Branch.list)
      ∨ ((∀ k : Kind, s ≠ k.label) ∧ s ≠ "List" ∧ switchKind s = Branch.default) := by
  by_cases h0 : s = "ClusterRole"
  · exact Or.inl ⟨Kind.ClusterRole, h0, by rw [h0]; rfl⟩
  by_cases h1 : s = "ClusterRoleBinding"
  · exact Or.inl ⟨Kind.ClusterRoleBinding, h1, by rw [h1]; rfl⟩
  by_cases h2 : s = "ConfigMap"
  · exact Or.inl ⟨Kind.ConfigMap, h2, by rw [h2]; rfl⟩
  by_cases h3 : s = "CronJob"
  · exact Or.inl ⟨Kind.CronJob, h3, by rw [h3]; rfl⟩
  by_cases h4 : s = "DaemonSet"
  · exact Or.inl ⟨Kind.DaemonSet, h4, by rw [h4]; rfl⟩
  by_cases h5 : s = "Deployment"
  · exact Or.inl ⟨Kind.Deployment, h5, by rw [h5]; rfl⟩
  by_cases h6 : s = "Job"
  · exact Or.inl ⟨Kind.Job, h6, by rw [h6]; rfl⟩
  by_cases h7 : s = "List"
  · exact Or.inr (Or.inl ⟨h7, by rw [h7]; rfl⟩)
  by_cases h8 : s = "PersistentVolumeClaim"
  · exact Or.inl ⟨Kind.PersistentVolumeClaim, h8, by rw [h8]; rfl⟩
  by_cases h9 : s = "Pod"
  · exact Or.inl ⟨Kind.Pod, h9, by rw [h9]; rfl⟩
  by_cases h10 : s = "PodDisruptionBudget"
  · exact Or.inl ⟨Kind.PodDisruptionBudget, h10, by rw [h10]; rfl⟩
  by_cases h11 : s = "PodSecurityPolicy"
  · exact Or.inl ⟨Kind.PodSecurityPolicy, h11, by rw [h11]; rfl⟩
  by_cases h12 : s = "Role"
  · exact Or.inl ⟨Kind.Role, h12, by rw [h12]; rfl⟩
  by_cases h13 : s = "RoleBinding"
  · exact Or.inl ⟨Kind.RoleBinding, h13, by rw [h13]; rfl⟩
  by_cases h14 : s = "Secret"
  · exact Or.inl ⟨Kind.Secret, h14, by rw [h14]; rfl⟩
  by_cases h15 : s = "Service"
  · exact Or.inl ⟨Kind.Service, h15, by rw [h15]; rfl⟩
  by_cases h16 : s = "ServiceAccount"
  · exact Or.inl ⟨Kind.ServiceAccount, h16, by rw [h16]; rfl⟩
  by_cases h17 : s = "StatefulSet"
  · exact Or.inl ⟨Kind.StatefulSet, h17, by rw [h17]; rfl⟩
  refine Or.inr (Or.inr ⟨fun k => by cases k <;> assumption, h7, ?_⟩)
  unfold switchKind
  rw [if_neg h0, if_neg h1, if_neg h2, if_neg h3, if_neg h4, if_neg h5, if_neg h6, if_neg h7, if_neg h8, if_neg h9, if_neg h10, if_neg h11, if_neg h12, if_neg h13, if_neg h14, if_neg h15, if_neg h16, if_neg h17]

theorem switchKind_typed {s : String} {k : Kind} (h : switchKind s = Branch.typed k) :
    s = k.label := by
  rcases switchKind_cases s with ⟨k', hs, hk⟩ | ⟨_, hk⟩ | ⟨_, _, hk⟩
  · rw [hk] at h
    injection h with h
    rw [← h]
    exact hs
  · rw [hk] at h
    cases h
  · rw [hk] at h
    cases h

theorem switchKind_list {s : String} (h : switchKind s = Branch.list) : s = "List" := by
  rcases switchKind_cases s with ⟨k', _, hk⟩ | ⟨hs, _⟩ | ⟨_, _, hk⟩
  · rw [hk] at h
    cases h
  · exact hs
  · rw [hk] at h
    cases h

theorem switchKind_of_list : switchKind "List" = Branch.list := by rfl

theorem switchKind_default {s : String} (hk : ∀ k : Kind, s ≠ k.label) (hl : s ≠ "List") :
    switchKind s = Branch.default := by
  rcases switchKind_cases s with ⟨k', hs, _⟩ | ⟨hs, _⟩ | ⟨_, _, h⟩
  · exact absurd hs (hk k')
  · exact absurd hs hl
  · exact h

theorem Locals.get_assign {ρ : Type} (m : Locals ρ) (k : Kind) (name : String) (r : ρ)
    (k' : Kind) :
    (m.assign k name r).get k' = if k' = k then (m.get k).set name r else m.get k' := by
  cases k <;> cases k' <;> rfl

theorem Locals.get_make {ρ : Type} (k : Kind) : (Locals.make : Locals ρ).get k = [] := by
  cases k <;> rfl

theorem returnBundle_mapping {ρ : Type} (m : Locals ρ) (k : Kind) :
    (returnBundle m).mapping k = if k = Kind.PodSecurityPolicy then none else some (m.get k) := by
  cases k <;> rfl

/-! ## The loop -/

theorem NoError_none (t : TestingT) (msg : Option String) : NoError t none msg = t := rfl

theorem NoError_grows (t : TestingT) (err msg : Option String) :
    ∃ fs, (NoError t err msg).failures = t.failures ++ fs := by
  cases err with
  | none => exact ⟨[], by simp [NoError]⟩
  | some e => exact ⟨[Failure.NoError e msg], rfl⟩

theorem typedCase_grows {ρ : Type} (lib : SchemaLibrary ρ) (k : Kind) (v : String)
    (t : TestingT) (m : Locals ρ) :
    ∃ fs, (typedCase lib k v t m).1.failures = t.failures ++ fs := by
  unfold typedCase
  by_cases hk : k.decodesWithE = true
  · simp only [hk, if_true]
    exact NoError_grows _ _ _
  · simp only [hk]
    cases (lib.UnmarshalResource k v).2 with
    | none => exact ⟨[], by simp⟩
    | some e => exact ⟨[Failure.NoError e none], rfl⟩

theorem processDocument_typed {ρ : Type} (lib : SchemaLibrary ρ) (v : String) (t : TestingT)
    (m : Locals ρ) (k : Kind) (hs : switchKind (lib.UnmarshalTypeMeta v).1.Kind = Branch.typed k) :
    processDocument lib v t m = typedCase lib k v (NoError t (lib.UnmarshalTypeMeta v).2 none) m := by
  simp only [processDocument, hs]

theorem processDocument_list {ρ : Type} (lib : SchemaLibrary ρ) (v : String) (t : TestingT)
    (m : Locals ρ) (hs : switchKind (lib.UnmarshalTypeMeta v).1.Kind = Branch.list) :
    processDocument lib v t m = (NoError t (lib.UnmarshalTypeMeta v).2 none, some m) := by
  simp only [processDocument, hs]

theorem processDocument_unknown {ρ : Type} (lib : SchemaLibrary ρ) (v : String) (t : TestingT)
    (m : Locals ρ) (hs : switchKind (lib.UnmarshalTypeMeta v).1.Kind = Branch.default)
    (hb : (lib.UnmarshalTypeMeta v).1.Kind ≠ "" ∨ (lib.UnmarshalTypeMeta v).1.APIVersion ≠ "") :
    processDocument lib v t m =
      ((NoError t (lib.UnmarshalTypeMeta v).2 none).Errorf
        (unknownKindMessage (lib.UnmarshalTypeMeta v).1 v), some m) := by
  simp only [processDocument, hs, hb, if_true]

theorem processDocument_blank {ρ : Type} (lib : SchemaLibrary ρ) (v : String) (t : TestingT)
    (m : Locals ρ) (hs : switchKind (lib.UnmarshalTypeMeta v).1.Kind = Branch.default)
    (hb : ¬ ((lib.UnmarshalTypeMeta v).1.Kind ≠ "" ∨ (lib.UnmarshalTypeMeta v).1.APIVersion ≠ "")) :
    processDocument lib v t m =
      ((NoError t (lib.UnmarshalTypeMeta v).2 none).Logf ("Skipping empty resource: " ++ v),
        some m) := by
  simp only [processDocument, hs, hb, if_false]

theorem processDocument_grows {ρ : Type} (lib : SchemaLibrary ρ) (v : String)
    (t : TestingT) (m : Locals ρ) :
    ∃ fs, (processDocument lib v t m).1.failures = t.failures ++ fs := by
  obtain ⟨f1, h1⟩ := NoError_grows t (lib.UnmarshalTypeMeta v).2 none
  cases hs : switchKind (lib.UnmarshalTypeMeta v).1.Kind with
  | typed k =>
    obtain ⟨f2, h2⟩ := typedCase_grows lib k v (NoError t (lib.UnmarshalTypeMeta v).2 none) m
    rw [processDocument_typed lib v t m k hs]
    exact ⟨f1 ++ f2, by rw [h2, h1, List.append_assoc]⟩
  | list =>
    rw [processDocument_list lib v t m hs]
    exact ⟨f1, h1⟩
  | default =>
    by_cases hb : (lib.UnmarshalTypeMeta v).1.Kind ≠ "" ∨ (lib.UnmarshalTypeMeta v).1.APIVersion ≠ ""
    · rw [processDocument_unknown lib v t m hs hb]
      exact ⟨f1 ++ [Failure.Errorf (unknownKindMessage (lib.UnmarshalTypeMeta v).1 v)],
        by simp only [TestingT.Errorf, h1, List.append_assoc]⟩
    · rw [processDocument_blank lib v t m hs hb]
      exact ⟨f1, by simp only [TestingT.Logf, h1]⟩

theorem processDocuments_grows {ρ : Type} (lib : SchemaLibrary ρ) (docs : List String) :
    ∀ (t : TestingT) (m : Locals ρ),
      ∃ fs, (processDocuments lib docs t m).1.failures = t.failures ++ fs := by
  induction docs with
  | nil => intro t m; exact ⟨[], by simp [processDocuments]⟩
  | cons v vs ih =>
    intro t m
    obtain ⟨f1, h1⟩ := processDocument_grows lib v t m
    unfold processDocuments
    rcases hp : processDocument lib v t m with ⟨t', _ | m'⟩
    · rw [hp] at h1
      exact ⟨f1, h1⟩
    · rw [hp] at h1
      obtain ⟨f2, h2⟩ := ih t' m'
      have h1' : t'.failures = t.failures ++ f1 := h1
      exact ⟨f1 ++ f2, by simp only [h2, h1', List.append_assoc]⟩

theorem finish_t {ρ : Type} (x : TestingT × Option (Locals ρ)) : (finish x).t = x.1 := by
  rcases x with ⟨t, _ | m⟩ <;> rfl

/-- A failure reported before the rest of the documents is processed is still there at the
end. -/
theorem mem_failures_finish {ρ : Type} (lib : SchemaLibrary ρ) (docs : List String)
    (t : TestingT) (m : Locals ρ) (f : Failure) (hf : f ∈ t.failures) :
    f ∈ (finish (processDocuments lib docs t m)).t.failures := by
  obtain ⟨fs, h⟩ := processDocuments_grows lib docs t m
  rw [finish_t, h]
  exact List.mem_append_left _ hf

theorem processDocuments_cons {ρ : Type} (lib : SchemaLibrary ρ) (v : String)
    (vs : List String) (t t' : TestingT) (m m' : Locals ρ)
    (h : processDocument lib v t m = (t', some m')) :
    processDocuments lib (v :: vs) t m = processDocuments lib vs t' m' := by
  simp only [processDocuments, h]

theorem processDocuments_cons_stop {ρ : Type} (lib : SchemaLibrary ρ) (v : String)
    (vs : List String) (t t' : TestingT) (m : Locals ρ)
    (h : processDocument lib v t m = (t', none)) :
    processDocuments lib (v :: vs) t m = (t', none) := by
  simp only [processDocuments, h]

theorem processDocuments_append {ρ : Type} (lib : SchemaLibrary ρ) (pre post : List String) :
    ∀ (t t1 : TestingT) (m m1 : Locals ρ), processDocuments lib pre t m = (t1, some m1) →
      processDocuments lib (pre ++ post) t m = processDocuments lib post t1 m1 := by
  induction pre with
  | nil =>
    intro t t1 m m1 h
    simp only [processDocuments, Prod.mk.injEq, Option.some.injEq] at h
    rw [h.1, h.2, List.nil_append]
  | cons v vs ih =>
    intro t t1 m m1 h
    rcases hp : processDocument lib v t m with ⟨t', _ | m'⟩
    · rw [processDocuments_cons_stop lib v vs t t' m hp] at h
      cases h
    · rw [processDocuments_cons lib v vs t t' m m' hp] at h
      rw [List.cons_append, processDocuments_cons lib v (vs ++ post) t t' m m' hp]
      exact ih t' t1 m' m1 h

theorem NewKubernetesResources_eq {ρ : Type} (lib : SchemaLibrary ρ) (t : TestingT)
    (input : String) :
    NewKubernetesResources lib t input
      = finish (processDocuments lib (Split input separator) t Locals.make) := rfl

/-- The run on an input whose documents are `pre ++ v :: post`, once the documents before `v`
have been processed without stopping. -/
theorem run_reaches {ρ : Type} (lib : SchemaLibrary ρ) (t : TestingT) (input : String)
    (pre : List String) (v : String) (post : List String) (t1 : TestingT) (m1 : Locals ρ)
    (hsplit : Split input separator = pre ++ v :: post)
    (hreach : processDocuments lib pre t Locals.make = (t1, some m1)) :
    NewKubernetesResources lib t input = finish (processDocuments lib (v :: post) t1 m1) := by
  unfold NewKubernetesResources
  simp only [hsplit]
  rw [processDocuments_append lib pre (v :: post) t t1 Locals.make m1 hreach]

/-! ## Typed cases -/

theorem typedCase_ok {ρ : Type} (lib : SchemaLibrary ρ) (k : Kind) (v : String) (t : TestingT)
    (m : Locals ρ) (he : (lib.UnmarshalResource k v).2 = none) :
    typedCase lib k v t m
      = (t, some (m.assign k (lib.Name (lib.UnmarshalResource k v).1)
          (lib.UnmarshalResource k v).1)) := by
  unfold typedCase
  cases hk : k.decodesWithE <;> simp [he, NoError]

theorem typedCase_continue {ρ : Type} (lib : SchemaLibrary ρ) (k : Kind) (v : String)
    (t : TestingT) (m : Locals ρ) (hk : k.decodesWithE = true) :
    typedCase lib k v t m
      = (NoError t (lib.UnmarshalResource k v).2 (some (failedToParseMessage k v)),
          some (m.assign k (lib.Name (lib.UnmarshalResource k v).1)
            (lib.UnmarshalResource k v).1)) := by
  unfold typedCase
  simp [hk]

theorem typedCase_stop {ρ : Type} (lib : SchemaLibrary ρ) (k : Kind) (v : String)
    (t : TestingT) (m : Locals ρ) (e : String) (hk : k.decodesWithE = false)
    (he : (lib.UnmarshalResource k v).2 = some e) :
    typedCase lib k v t m = (NoError t (some e) none, none) := by
  unfold typedCase
  simp [hk, he]

/-- A well-formed document of a supported kind: nothing is reported and the decoded object
is assigned in the local map of its kind, under its name. -/
theorem processDocument_ok {ρ : Type} (lib : SchemaLibrary ρ) (v : String) (t : TestingT)
    (m : Locals ρ) (k : Kind) (hkind : (lib.UnmarshalTypeMeta v).1.Kind = k.label)
    (hmeta : (lib.UnmarshalTypeMeta v).2 = none) (he : (lib.UnmarshalResource k v).2 = none) :
    processDocument lib v t m
      = (t, some (m.assign k (lib.Name (lib.UnmarshalResource k v).1)
          (lib.UnmarshalResource k v).1)) := by
  have hs : switchKind (lib.UnmarshalTypeMeta v).1.Kind = Branch.typed k := by
    rw [hkind]
    exact switchKind_label k
  rw [processDocument_typed lib v t m k hs, hmeta, NoError_none, typedCase_ok lib k v t m he]

theorem set_nil {ρ : Type} (n : String) (r : ρ) : Entries.set ([] : Entries ρ) n r = [(n, r)] :=
  rfl

theorem set_same {ρ : Type} (n : String) (r r' : ρ) (rest : Entries ρ) :
    Entries.set ((n, r) :: rest) n r' = (n, r') :: rest := by
  simp [Entries.set]

/-- A document leaves the local map of every kind other than the one its discriminator
names as it is. -/
theorem processDocument_other {ρ : Type} (lib : SchemaLibrary ρ) (v : String)
    (t t' : TestingT) (m m' : Locals ρ) (k : Kind)
    (hp : processDocument lib v t m = (t', some m'))
    (hk : (lib.UnmarshalTypeMeta v).1.Kind ≠ k.label) : m'.get k = m.get k := by
  cases hs : switchKind (lib.UnmarshalTypeMeta v).1.Kind with
  | typed k' =>
    have hne : k ≠ k' := by
      intro h
      subst h
      exact hk (switchKind_typed hs)
    rw [processDocument_typed lib v t m k' hs] at hp
    cases hd : k'.decodesWithE with
    | true =>
      rw [typedCase_continue lib k' v _ m hd] at hp
      simp only [Prod.mk.injEq, Option.some.injEq] at hp
      rw [← hp.2, Locals.get_assign, if_neg hne]
    | false =>
      cases he : (lib.UnmarshalResource k' v).2 with
      | some e =>
        rw [typedCase_stop lib k' v _ m e hd he] at hp
        simp at hp
      | none =>
        rw [typedCase_ok lib k' v _ m he] at hp
        simp only [Prod.mk.injEq, Option.some.injEq] at hp
        rw [← hp.2, Locals.get_assign, if_neg hne]
  | list =>
    rw [processDocument_list lib v t m hs] at hp
    simp only [Prod.mk.injEq, Option.some.injEq] at hp
    rw [← hp.2]
  | default =>
    by_cases hb : (lib.UnmarshalTypeMeta v).1.Kind ≠ "" ∨ (lib.UnmarshalTypeMeta v).1.APIVersion ≠ ""
    · rw [processDocument_unknown lib v t m hs hb] at hp
      simp only [Prod.mk.injEq, Option.some.injEq] at hp
      rw [← hp.2]
    · rw [processDocument_blank lib v t m hs hb] at hp
      simp only [Prod.mk.injEq, Option.some.injEq] at hp
      rw [← hp.2]

theorem processDocuments_other {ρ : Type} (lib : SchemaLibrary ρ) (k : Kind) :
    ∀ (docs : List String) (t t' : TestingT) (m m' : Locals ρ),
      processDocuments lib docs t m = (t', some m') →
      (∀ d ∈ docs, (lib.UnmarshalTypeMeta d).1.Kind ≠ k.label) → m'.get k = m.get k := by
  intro docs
  induction docs with
  | nil =>
    intro t t' m m' hp _
    simp only [processDocuments, Prod.mk.injEq, Option.some.injEq] at hp
    rw [← hp.2]
  | cons v vs ih =>
    intro t t' m m' hp hk
    rcases h1 : processDocument lib v t m with ⟨t1, _ | m1⟩
    · rw [processDocuments_cons_stop lib v vs t t1 m h1] at hp
      cases hp
    · rw [processDocuments_cons lib v vs t t1 m m1 h1] at hp
      rw [ih t1 t' m1 m' hp (fun d hd => hk d (List.mem_cons_of_mem _ hd))]
      exact processDocument_other lib v t t1 m m1 k h1 (hk v (List.mem_cons_self _ _))

theorem finish_bundle {ρ : Type} (x : TestingT × Option (Locals ρ)) (b : KubernetesResources ρ)
    (h : (finish x).bundle = some b) : ∃ m, x.2 = some m ∧ b = returnBundle m := by
  rcases x with ⟨t, _ | m⟩
  · cases h
  · simp only [finish, Option.some.injEq] at h
    exact ⟨m, rfl, h.symm⟩

/-! ## The returned bundle -/

/-- C1: the run on exactly one well-formed document of a supported kind `K` named `N`
returns a bundle and reports nothing. For each of the sixteen kinds other than
PodSecurityPolicy the mapping of `K` holds exactly the entry under `N` and the other
mappings set by the `return` statement are empty; the `Psps` mapping is the nil map
whatever `K` is, so a PodSecurityPolicy document has no entry in the returned bundle. -/
theorem single_document_bundle {ρ : Type} (lib : SchemaLibrary ρ) (t : TestingT)
    (input : String) (K : Kind) (N : String)
    (hone : ¬ separator.data <:+: input.data)
    (hkind : (lib.UnmarshalTypeMeta input).1.Kind = K.label)
    (hmeta : (lib.UnmarshalTypeMeta input).2 = none)
    (he : (lib.UnmarshalResource K input).2 = none)
    (hname : lib.Name (lib.UnmarshalResource K input).1 = N) :
    ∃ b, NewKubernetesResources lib t input = ⟨t, some b⟩
      ∧ ∀ K' : Kind, b.mapping K' =
          if K' = Kind.PodSecurityPolicy then none
          else if K' = K then some [(N, (lib.UnmarshalResource K input).1)]
          else some [] := by
  refine ⟨returnBundle (Locals.make.assign K N (lib.UnmarshalResource K input).1), ?_, ?_⟩
  · unfold NewKubernetesResources
    simp only [Split_single input hone]
    rw [processDocuments_cons lib input [] t t Locals.make _
      (processDocument_ok lib input t Locals.make K hkind hmeta he), hname]
    rfl
  · intro K'
    rw [returnBundle_mapping, Locals.get_assign, Locals.get_make, set_nil]
    by_cases h1 : K' = Kind.PodSecurityPolicy
    · simp only [h1, if_true]
    · by_cases h2 : K' = K
      · simp only [h1, h2, if_true, if_false]
      · simp only [h1, h2, if_false, Locals.get_make]

/-- C1 at a PodSecurityPolicy document named `psp1`: a bundle is returned, nothing is reported,
and the `Psps` mapping of the bundle is the nil map. -/
theorem single_document_bundle_psp :
    ¬ separator.data <:+: pspDoc.data
      ∧ (exampleLibrary.UnmarshalTypeMeta pspDoc).1.Kind = Kind.PodSecurityPolicy.label
      ∧ ∃ b, NewKubernetesResources exampleLibrary freshT pspDoc = ⟨freshT, some b⟩
        ∧ b.Psps = none :=
  ⟨by decide, rfl,
    (single_document_bundle exampleLibrary freshT pspDoc Kind.PodSecurityPolicy "psp1"
      (by decide) rfl rfl rfl rfl).imp
      (fun _ h => ⟨h.1, (h.2 Kind.PodSecurityPolicy).trans (if_pos rfl)⟩)⟩

/-- C2: a returned bundle has the nil map as its `Psps` mapping, whatever the input. Each
of the other sixteen mappings is a made map, and it is empty when no document of the input
has its kind. -/
theorem returned_mappings {ρ : Type} (lib : SchemaLibrary ρ) (t : TestingT) (input : String)
    (b : KubernetesResources ρ) (hb : (NewKubernetesResources lib t input).bundle = some b) :
    b.Psps = none
      ∧ (∀ K : Kind, K ≠ Kind.PodSecurityPolicy → ∃ es, b.mapping K = some es)
      ∧ (∀ K : Kind, K ≠ Kind.PodSecurityPolicy →
          (∀ d ∈ Split input separator, (lib.UnmarshalTypeMeta d).1.Kind ≠ K.label) →
          b.mapping K = some []) := by
  obtain ⟨m, hm, hbm⟩ := finish_bundle _ b hb
  subst hbm
  refine ⟨rfl, ?_, ?_⟩
  · intro K hK
    exact ⟨m.get K, by rw [returnBundle_mapping, if_neg hK]⟩
  · intro K hK hdocs
    rw [returnBundle_mapping, if_neg hK]
    have := processDocuments_other lib K (Split input separator) t _ Locals.make m
      (Prod.ext rfl hm) hdocs
    rw [this, Locals.get_make]

/-- C2 at the empty input: the returned bundle has no `Psps` map. -/
theorem returned_mappings_empty_input :
    (NewKubernetesResources exampleLibrary freshT "").bundle
        = some (returnBundle Locals.make)
      ∧ (returnBundle (Locals.make : Locals Manifest)).Psps = none :=
  ⟨by decide, (returned_mappings exampleLibrary freshT "" (returnBundle Locals.make)
    (by decide)).1⟩

/-- C3: the run on two well-formed documents of one supported kind `K`, both named `N`,
returns a bundle and reports nothing. For each of the sixteen kinds other than
PodSecurityPolicy the mapping of `K` holds exactly one entry, under `N`, with the decoded
content of the second document; the `Psps` mapping is the nil map whatever `K` is. -/
theorem last_write_wins {ρ : Type} (lib : SchemaLibrary ρ) (t : TestingT)
    (input v1 v2 : String) (K : Kind) (N : String)
    (hsplit : Split input separator = [v1, v2])
    (hkind1 : (lib.UnmarshalTypeMeta v1).1.Kind = K.label)
    (hmeta1 : (lib.UnmarshalTypeMeta v1).2 = none)
    (he1 : (lib.UnmarshalResource K v1).2 = none)
    (hname1 : lib.Name (lib.UnmarshalResource K v1).1 = N)
    (hkind2 : (lib.UnmarshalTypeMeta v2).1.Kind = K.label)
    (hmeta2 : (lib.UnmarshalTypeMeta v2).2 = none)
    (he2 : (lib.UnmarshalResource K v2).2 = none)
    (hname2 : lib.Name (lib.UnmarshalResource K v2).1 = N) :
    ∃ b, NewKubernetesResources lib t input = ⟨t, some b⟩
      ∧ ∀ K' : Kind, b.mapping K' =
          if K' = Kind.PodSecurityPolicy then none
          else if K' = K then some [(N, (lib.UnmarshalResource K v2).1)]
          else some [] := by
  refine ⟨returnBundle ((Locals.make.assign K N (lib.UnmarshalResource K v1).1).assign K N
    (lib.UnmarshalResource K v2).1), ?_, ?_⟩
  · unfold NewKubernetesResources
    simp only [hsplit]
    rw [processDocuments_cons lib v1 [v2] t t Locals.make _
      (processDocument_ok lib v1 t Locals.make K hkind1 hmeta1 he1), hname1,
      processDocuments_cons lib v2 [] t t _ _
      (processDocument_ok lib v2 t _ K hkind2 hmeta2 he2), hname2]
    rfl
  · intro K'
    rw [returnBundle_mapping, Locals.get_assign, Locals.get_assign, Locals.get_assign,
      Locals.get_make]
    by_cases h1 : K' = Kind.PodSecurityPolicy
    · simp only [h1, if_true]
    · by_cases h2 : K' = K
      · simp only [h1, h2, if_true, if_false, set_nil, set_same]
      · simp only [h1, h2, if_false, Locals.get_make]

/-- C3 at two PodSecurityPolicy documents named `psp1`: a bundle is returned, nothing is
reported, and the `Psps` mapping of the bundle is the nil map. -/
theorem last_write_wins_psp :
    Split (pspDoc ++ separator ++ pspDoc2) separator = [pspDoc, pspDoc2]
      ∧ ∃ b, NewKubernetesResources exampleLibrary freshT (pspDoc ++ separator ++ pspDoc2)
          = ⟨freshT, some b⟩
        ∧ b.Psps = none :=
  ⟨by decide,
    (last_write_wins exampleLibrary freshT (pspDoc ++ separator ++ pspDoc2)
      pspDoc pspDoc2 Kind.PodSecurityPolicy "psp1" (by decide) rfl rfl rfl rfl rfl rfl rfl rfl).imp
      (fun _ h => ⟨h.1, (h.2 Kind.PodSecurityPolicy).trans (if_pos rfl)⟩)⟩

/-- C4: when the schema library decodes the empty text to a blank discriminator without
error, the run on the empty string and the run on the separator alone return a bundle whose
seventeen mappings all have length zero, and report no failure. -/
theorem empty_input_bundle {ρ : Type} (lib : SchemaLibrary ρ) (t : TestingT) (input : String)
    (hblank : lib.UnmarshalTypeMeta "" = (⟨"", ""⟩, none))
    (hinput : input = "" ∨ input = separator) :
    ∃ b, (NewKubernetesResources lib t input).bundle = some b
      ∧ (∀ K : Kind, (b.mapping K).len = 0)
      ∧ (NewKubernetesResources lib t input).t.failures = t.failures := by
  have hs : switchKind (lib.UnmarshalTypeMeta "").1.Kind = Branch.default := by
    rw [hblank]
    rfl
  have hb : ¬ ((lib.UnmarshalTypeMeta "").1.Kind ≠ "" ∨ (lib.UnmarshalTypeMeta "").1.APIVersion ≠ "") := by
    rw [hblank]
    simp
  have hdoc : ∀ (t0 : TestingT) (m : Locals ρ),
      processDocument lib "" t0 m = (t0.Logf ("Skipping empty resource: " ++ ""), some m) := by
    intro t0 m
    rw [processDocument_blank lib "" t0 m hs hb, hblank, NoError_none]
  have hlen : ∀ K : Kind, ((returnBundle (Locals.make : Locals ρ)).mapping K).len = 0 := by
    intro K
    cases K <;> rfl
  rcases hinput with h | h
  · subst h
    refine ⟨returnBundle Locals.make, ?_, hlen, ?_⟩
    · rw [NewKubernetesResources_eq,
        show Split "" separator = [""] by decide,
        processDocuments_cons lib "" [] t _ Locals.make _ (hdoc t Locals.make)]
      rfl
    · rw [NewKubernetesResources_eq,
        show Split "" separator = [""] by decide,
        processDocuments_cons lib "" [] t _ Locals.make _ (hdoc t Locals.make)]
      rfl
  · subst h
    refine ⟨returnBundle Locals.make, ?_, hlen, ?_⟩
    · rw [NewKubernetesResources_eq,
        show Split separator separator = ["", ""] by decide,
        processDocuments_cons lib "" [""] t _ Locals.make _ (hdoc t Locals.make),
        processDocuments_cons lib "" [] _ _ Locals.make _ (hdoc _ Locals.make)]
      rfl
    · rw [NewKubernetesResources_eq,
        show Split separator separator = ["", ""] by decide,
        processDocuments_cons lib "" [""] t _ Locals.make _ (hdoc t Locals.make),
        processDocuments_cons lib "" [] _ _ Locals.make _ (hdoc _ Locals.make)]
      rfl

/-- C4 at the separator alone, with the schema library of the examples. -/
theorem empty_input_bundle_witness :
    ∃ b, (NewKubernetesResources exampleLibrary freshT separator).bundle = some b
      ∧ (∀ K : Kind, (b.mapping K).len = 0)
      ∧ (NewKubernetesResources exampleLibrary freshT separator).t.failures
          = freshT.failures :=
  empty_input_bundle exampleLibrary freshT separator rfl (Or.inr rfl)

/-! ## Documents that are not accumulated -/

theorem mem_failures_run {ρ : Type} (lib : SchemaLibrary ρ) (v : String) (post : List String)
    (t : TestingT) (m : Locals ρ) (f : Failure)
    (hf : f ∈ (processDocument lib v t m).1.failures) :
    f ∈ (finish (processDocuments lib (v :: post) t m)).t.failures := by
  rcases hp : processDocument lib v t m with ⟨t', _ | m'⟩
  · rw [processDocuments_cons_stop lib v post t t' m hp, finish_t]
    rw [hp] at hf
    exact hf
  · rw [processDocuments_cons lib v post t t' m m' hp]
    rw [hp] at hf
    exact mem_failures_finish lib post t' m' f hf

theorem processDocument_keeps_report {ρ : Type} (lib : SchemaLibrary ρ) (v : String)
    (t : TestingT) (m : Locals ρ) (f : Failure)
    (hf : f ∈ (NoError t (lib.UnmarshalTypeMeta v).2 none).failures) :
    f ∈ (processDocument lib v t m).1.failures := by
  cases hs : switchKind (lib.UnmarshalTypeMeta v).1.Kind with
  | typed k =>
    obtain ⟨fs, h⟩ := typedCase_grows lib k v (NoError t (lib.UnmarshalTypeMeta v).2 none) m
    rw [processDocument_typed lib v t m k hs, h]
    exact List.mem_append_left _ hf
  | list =>
    rw [processDocument_list lib v t m hs]
    exact hf
  | default =>
    by_cases hb : (lib.UnmarshalTypeMeta v).1.Kind ≠ "" ∨ (lib.UnmarshalTypeMeta v).1.APIVersion ≠ ""
    · rw [processDocument_unknown lib v t m hs hb]
      exact List.mem_append_left _ hf
    · rw [processDocument_blank lib v t m hs hb]
      exact hf

theorem kind_in_unknownKindMessage (metadata : TypeMeta) (v : String) :
    metadata.Kind.data <:+: (unknownKindMessage metadata v).data := by
  refine ⟨("Found unknown kind '" ++ metadata.APIVersion ++ "/").data,
    ("' in content\n" ++ v ++ "\n This can be caused by an incorrect k8s resource type in the helm template or when using a custom resource type.").data, ?_⟩
  simp only [unknownKindMessage, String.data_append, List.append_assoc]

theorem label_in_failedToParseMessage (k : Kind) (v : String) :
    k.label.data <:+: (failedToParseMessage k v).data := by
  refine ⟨[], (" failed to parse: " ++ v).data, ?_⟩
  simp only [failedToParseMessage, String.data_append, List.append_assoc, List.nil_append]

theorem text_in_failedToParseMessage (k : Kind) (v : String) :
    v.data <:+: (failedToParseMessage k v).data := by
  refine ⟨(k.label ++ " failed to parse: ").data, [], ?_⟩
  simp only [failedToParseMessage, String.data_append, List.append_assoc, List.append_nil]

/-- C5: a document whose decoded kind is not empty, is none of the seventeen supported kinds
and is not `List`, once the run gets to it: a failure whose message contains that kind is
among the failures reported by the run, the local maps after the document are those before
it, and the run goes on with the documents that follow. -/
theorem unknown_kind_reported {ρ : Type} (lib : SchemaLibrary ρ) (t : TestingT)
    (input : String) (pre : List String) (v : String) (post : List String) (t1 : TestingT)
    (m1 : Locals ρ)
    (hsplit : Split input separator = pre ++ v :: post)
    (hreach : processDocuments lib pre t Locals.make = (t1, some m1))
    (hkind : (lib.UnmarshalTypeMeta v).1.Kind ≠ "")
    (hsup : ∀ K : Kind, (lib.UnmarshalTypeMeta v).1.Kind ≠ K.label)
    (hlist : (lib.UnmarshalTypeMeta v).1.Kind ≠ "List") :
    Failure.Errorf (unknownKindMessage (lib.UnmarshalTypeMeta v).1 v)
        ∈ (NewKubernetesResources lib t input).t.failures
      ∧ (lib.UnmarshalTypeMeta v).1.Kind.data
          <:+: (unknownKindMessage (lib.UnmarshalTypeMeta v).1 v).data
      ∧ (processDocument lib v t1 m1).2 = some m1
      ∧ NewKubernetesResources lib t input
          = finish (processDocuments lib post (processDocument lib v t1 m1).1 m1) := by
  have hp := processDocument_unknown lib v t1 m1 (switchKind_default hsup hlist) (Or.inl hkind)
  have hrun := run_reaches lib t input pre v post t1 m1 hsplit hreach
  refine ⟨?_, kind_in_unknownKindMessage _ v, by rw [hp], ?_⟩
  · rw [hrun]
    apply mem_failures_run
    rw [hp]
    exact List.mem_append_right _ (List.mem_singleton.mpr rfl)
  · rw [hrun, processDocuments_cons lib v post t1 _ m1 m1 hp, hp]

/-- C5 at a Frobnicator document. -/
theorem unknown_kind_reported_witness :
    Failure.Errorf (unknownKindMessage ⟨"Frobnicator", "v1"⟩ frobnicatorDoc)
        ∈ (NewKubernetesResources exampleLibrary freshT frobnicatorDoc).t.failures
      ∧ "Frobnicator".data <:+: (unknownKindMessage ⟨"Frobnicator", "v1"⟩ frobnicatorDoc).data
      ∧ (processDocument exampleLibrary frobnicatorDoc freshT Locals.make).2 = some Locals.make
      ∧ NewKubernetesResources exampleLibrary freshT frobnicatorDoc
          = finish (processDocuments exampleLibrary []
              (processDocument exampleLibrary frobnicatorDoc freshT Locals.make).1 Locals.make) :=
  unknown_kind_reported exampleLibrary freshT frobnicatorDoc [] frobnicatorDoc [] freshT
    Locals.make (by decide) rfl (by decide) (by intro K; cases K <;> decide) (by decide)

/-- C6, counterexample: a document whose kind is `List` and whose `apiVersion` is a number.
The discriminator decode returns an error next to the kind `List`, and the run reports a
failure. -/
theorem list_document_failure :
    (exampleLibrary.UnmarshalTypeMeta listNumberDoc).1.Kind = "List"
      ∧ (NewKubernetesResources exampleLibrary freshT listNumberDoc).t.failures
          = [Failure.NoError
              "json: cannot unmarshal number into Go struct field TypeMeta.apiVersion of type string"
              none] := by
  decide

/-- C6, amended: a document whose decoded kind is `List`, once the run gets to it: the local
maps after the document are those before it, the only failure the document can add is the
one of a discriminator decode error, so that nothing is reported when the discriminator
decoded without error, and the run goes on with the documents that follow. -/
theorem list_document_skipped {ρ : Type} (lib : SchemaLibrary ρ) (t : TestingT)
    (input : String) (pre : List String) (v : String) (post : List String) (t1 : TestingT)
    (m1 : Locals ρ)
    (hsplit : Split input separator = pre ++ v :: post)
    (hreach : processDocuments lib pre t Locals.make = (t1, some m1))
    (hkind : (lib.UnmarshalTypeMeta v).1.Kind = "List") :
    processDocument lib v t1 m1 = (NoError t1 (lib.UnmarshalTypeMeta v).2 none, some m1)
      ∧ ((lib.UnmarshalTypeMeta v).2 = none → processDocument lib v t1 m1 = (t1, some m1))
      ∧ NewKubernetesResources lib t input
          = finish (processDocuments lib post (NoError t1 (lib.UnmarshalTypeMeta v).2 none) m1) := by
  have hs : switchKind (lib.UnmarshalTypeMeta v).1.Kind = Branch.list := by
    rw [hkind]
    exact switchKind_of_list
  have hp := processDocument_list lib v t1 m1 hs
  refine ⟨hp, ?_, ?_⟩
  · intro hnone
    rw [hp, hnone, NoError_none]
  · rw [run_reaches lib t input pre v post t1 m1 hsplit hreach,
      processDocuments_cons lib v post t1 _ m1 m1 hp]

/-- C6, amended, at a well-formed List document followed by a Secret. -/
theorem list_document_skipped_witness :
    processDocument exampleLibrary listDoc freshT Locals.make
        = (NoError freshT (exampleLibrary.UnmarshalTypeMeta listDoc).2 none, some Locals.make)
      ∧ ((exampleLibrary.UnmarshalTypeMeta listDoc).2 = none →
          processDocument exampleLibrary listDoc freshT Locals.make = (freshT, some Locals.make))
      ∧ NewKubernetesResources exampleLibrary freshT (listDoc ++ separator ++ secretDoc)
          = finish (processDocuments exampleLibrary [secretDoc]
              (NoError freshT (exampleLibrary.UnmarshalTypeMeta listDoc).2 none) Locals.make) :=
  list_document_skipped exampleLibrary freshT (listDoc ++ separator ++ secretDoc) [] listDoc
    [secretDoc] freshT Locals.make (by decide) rfl (by decide)

/-- C7: a document whose discriminator decodes without error to a kind that is none of the
seventeen supported kinds and is not `List`, once the run gets to it. The document adds no
failure exactly when its kind and its apiVersion are both the empty string; the local maps
after the document are those before it; a discriminator with a non-empty kind or a
non-empty apiVersion is reported with the unknown-kind message, and a blank one is logged;
the run goes on with the documents that follow. -/
theorem blank_or_unknown {ρ : Type} (lib : SchemaLibrary ρ) (t : TestingT)
    (input : String) (pre : List String) (v : String) (post : List String) (t1 : TestingT)
    (m1 : Locals ρ)
    (hsplit : Split input separator = pre ++ v :: post)
    (hreach : processDocuments lib pre t Locals.make = (t1, some m1))
    (hmeta : (lib.UnmarshalTypeMeta v).2 = none)
    (hsup : ∀ K : Kind, (lib.UnmarshalTypeMeta v).1.Kind ≠ K.label)
    (hlist : (lib.UnmarshalTypeMeta v).1.Kind ≠ "List") :
    ((processDocument lib v t1 m1).1.failures = t1.failures ↔
        ((lib.UnmarshalTypeMeta v).1.Kind = "" ∧ (lib.UnmarshalTypeMeta v).1.APIVersion = ""))
      ∧ (processDocument lib v t1 m1).2 = some m1
      ∧ (¬ ((lib.UnmarshalTypeMeta v).1.Kind = "" ∧ (lib.UnmarshalTypeMeta v).1.APIVersion = "") →
          (processDocument lib v t1 m1).1
            = t1.Errorf (unknownKindMessage (lib.UnmarshalTypeMeta v).1 v))
      ∧ (((lib.UnmarshalTypeMeta v).1.Kind = "" ∧ (lib.UnmarshalTypeMeta v).1.APIVersion = "") →
          (processDocument lib v t1 m1).1 = t1.Logf ("Skipping empty resource: " ++ v))
      ∧ NewKubernetesResources lib t input
          = finish (processDocuments lib post (processDocument lib v t1 m1).1 m1) := by
  have hs := switchKind_default hsup hlist
  have hrun := run_reaches lib t input pre v post t1 m1 hsplit hreach
  by_cases hb : (lib.UnmarshalTypeMeta v).1.Kind ≠ "" ∨ (lib.UnmarshalTypeMeta v).1.APIVersion ≠ ""
  · have hp := processDocument_unknown lib v t1 m1 hs hb
    rw [hmeta, NoError_none] at hp
    have hnb : ¬ ((lib.UnmarshalTypeMeta v).1.Kind = "" ∧ (lib.UnmarshalTypeMeta v).1.APIVersion = "") := by
      intro h
      rcases hb with h1 | h1
      · exact h1 h.1
      · exact h1 h.2
    refine ⟨?_, by rw [hp], fun _ => by rw [hp], fun h => absurd h hnb, ?_⟩
    · rw [hp]
      constructor
      · intro h
        simp [TestingT.Errorf] at h
      · intro h
        exact absurd h hnb
    · rw [hrun, processDocuments_cons lib v post t1 _ m1 m1 hp, hp]
  · have hp := processDocument_blank lib v t1 m1 hs hb
    rw [hmeta, NoError_none] at hp
    have hbl : (lib.UnmarshalTypeMeta v).1.Kind = "" ∧ (lib.UnmarshalTypeMeta v).1.APIVersion = "" := by
      constructor
      · by_contra h
        exact hb (Or.inl h)
      · by_contra h
        exact hb (Or.inr h)
    refine ⟨?_, by rw [hp], fun h => absurd hbl h, fun _ => by rw [hp], ?_⟩
    · rw [hp]
      exact ⟨fun _ => hbl, fun _ => rfl⟩
    · rw [hrun, processDocuments_cons lib v post t1 _ m1 m1 hp, hp]

/-- C7 at a document that has an apiVersion and no kind, after an empty document. -/
theorem blank_or_unknown_witness :
    ((processDocument exampleLibrary apiVersionOnlyDoc
          (freshT.Logf "Skipping empty resource: ") Locals.make).1.failures
        = (freshT.Logf "Skipping empty resource: ").failures ↔
        ((exampleLibrary.UnmarshalTypeMeta apiVersionOnlyDoc).1.Kind = ""
          ∧ (exampleLibrary.UnmarshalTypeMeta apiVersionOnlyDoc).1.APIVersion = ""))
      ∧ (NewKubernetesResources exampleLibrary freshT
          (separator ++ apiVersionOnlyDoc)).t.failures
          = [Failure.Errorf (unknownKindMessage ⟨"", "v1"⟩ apiVersionOnlyDoc)] :=
  ⟨(blank_or_unknown exampleLibrary freshT (separator ++ apiVersionOnlyDoc) [""]
      apiVersionOnlyDoc [] (freshT.Logf "Skipping empty resource: ") Locals.make
      (by decide) rfl rfl (by intro K; cases K <;> decide) (by decide)).1,
    by decide⟩

/-! ## Decode errors -/

theorem set_mem_self {ρ : Type} (n : String) (r : ρ) : ∀ es : Entries ρ,
    (n, r) ∈ Entries.set es n r := by
  intro es
  induction es with
  | nil => simp [Entries.set]
  | cons p rest ih =>
    obtain ⟨k', v'⟩ := p
    by_cases h : k' = n
    · simp [Entries.set, h]
    · simp only [Entries.set, h, if_false]
      exact List.mem_cons_of_mem _ ih

theorem set_mem_keep {ρ : Type} (n : String) (x : ρ) (k : String) : ∀ es : Entries ρ,
    (∃ r, (k, r) ∈ es) → ∃ r, (k, r) ∈ Entries.set es n x := by
  intro es
  induction es with
  | nil => intro h; obtain ⟨r, hr⟩ := h; cases hr
  | cons p rest ih =>
    obtain ⟨k', v'⟩ := p
    intro h
    obtain ⟨r, hr⟩ := h
    by_cases hk : k' = n
    · simp only [Entries.set, hk, if_true]
      rcases List.mem_cons.mp hr with h1 | h1
      · simp only [Prod.mk.injEq] at h1
        exact ⟨x, by rw [h1.1, hk]; exact List.mem_cons_self _ _⟩
      · exact ⟨r, List.mem_cons_of_mem _ h1⟩
    · simp only [Entries.set, hk, if_false]
      rcases List.mem_cons.mp hr with h1 | h1
      · exact ⟨r, by rw [h1]; exact List.mem_cons_self _ _⟩
      · obtain ⟨r', hr'⟩ := ih ⟨r, h1⟩
        exact ⟨r', List.mem_cons_of_mem _ hr'⟩

/-- A document that does not stop the run either leaves the local maps as they are or makes
one assignment, of its decoded object under the decoded name. -/
theorem processDocument_maps {ρ : Type} (lib : SchemaLibrary ρ) (v : String)
    (t t' : TestingT) (m m' : Locals ρ) (hp : processDocument lib v t m = (t', some m')) :
    m' = m ∨ ∃ k : Kind, m' = m.assign k (lib.Name (lib.UnmarshalResource k v).1)
      (lib.UnmarshalResource k v).1 := by
  cases hs : switchKind (lib.UnmarshalTypeMeta v).1.Kind with
  | typed k' =>
    rw [processDocument_typed lib v t m k' hs] at hp
    right
    refine ⟨k', ?_⟩
    cases hd : k'.decodesWithE with
    | true =>
      rw [typedCase_continue lib k' v _ m hd] at hp
      simp only [Prod.mk.injEq, Option.some.injEq] at hp
      exact hp.2.symm
    | false =>
      cases he : (lib.UnmarshalResource k' v).2 with
      | some e =>
        rw [typedCase_stop lib k' v _ m e hd he] at hp
        simp at hp
      | none =>
        rw [typedCase_ok lib k' v _ m he] at hp
        simp only [Prod.mk.injEq, Option.some.injEq] at hp
        exact hp.2.symm
  | list =>
    rw [processDocument_list lib v t m hs] at hp
    simp only [Prod.mk.injEq, Option.some.injEq] at hp
    exact Or.inl hp.2.symm
  | default =>
    by_cases hb : (lib.UnmarshalTypeMeta v).1.Kind ≠ "" ∨ (lib.UnmarshalTypeMeta v).1.APIVersion ≠ ""
    · rw [processDocument_unknown lib v t m hs hb] at hp
      simp only [Prod.mk.injEq, Option.some.injEq] at hp
      exact Or.inl hp.2.symm
    · rw [processDocument_blank lib v t m hs hb] at hp
      simp only [Prod.mk.injEq, Option.some.injEq] at hp
      exact Or.inl hp.2.symm

/-- A key that is in a local map stays in it. -/
theorem processDocuments_keeps {ρ : Type} (lib : SchemaLibrary ρ) (K : Kind) (N : String) :
    ∀ (docs : List String) (t t' : TestingT) (m m' : Locals ρ),
      processDocuments lib docs t m = (t', some m') →
      (∃ r, (N, r) ∈ m.get K) → ∃ r, (N, r) ∈ m'.get K := by
  intro docs
  induction docs with
  | nil =>
    intro t t' m m' hp h
    simp only [processDocuments, Prod.mk.injEq, Option.some.injEq] at hp
    rw [← hp.2]
    exact h
  | cons v vs ih =>
    intro t t' m m' hp h
    rcases h1 : processDocument lib v t m with ⟨t1, _ | m1⟩
    · rw [processDocuments_cons_stop lib v vs t t1 m h1] at hp
      cases hp
    · rw [processDocuments_cons lib v vs t t1 m m1 h1] at hp
      apply ih t1 t' m1 m' hp
      rcases processDocument_maps lib v t t1 m m1 h1 with hm | ⟨k, hm⟩
      · rw [hm]
        exact h
      · rw [hm, Locals.get_assign]
        by_cases hk : K = k
        · rw [if_pos hk, ← hk]
          exact set_mem_keep _ _ N _ h
        · rw [if_neg hk]
          exact h

/-- A well-formed document of a supported kind that is among the documents of a run that
was not stopped has its name as a key of the local map of its kind at the end. -/
theorem processDocuments_appears {ρ : Type} (lib : SchemaLibrary ρ) (w : String) (K : Kind)
    (hkind : (lib.UnmarshalTypeMeta w).1.Kind = K.label)
    (hmeta : (lib.UnmarshalTypeMeta w).2 = none) (he : (lib.UnmarshalResource K w).2 = none) :
    ∀ (docs : List String) (t t' : TestingT) (m m' : Locals ρ), w ∈ docs →
      processDocuments lib docs t m = (t', some m') →
      ∃ r, (lib.Name (lib.UnmarshalResource K w).1, r) ∈ m'.get K := by
  intro docs
  induction docs with
  | nil => intro t t' m m' hw; cases hw
  | cons v vs ih =>
    intro t t' m m' hw hp
    rcases h1 : processDocument lib v t m with ⟨t1, _ | m1⟩
    · rw [processDocuments_cons_stop lib v vs t t1 m h1] at hp
      cases hp
    · rw [processDocuments_cons lib v vs t t1 m m1 h1] at hp
      rcases List.mem_cons.mp hw with hv | hv
      · subst hv
        rw [processDocument_ok lib w t m K hkind hmeta he] at h1
        simp only [Prod.mk.injEq, Option.some.injEq] at h1
        apply processDocuments_keeps lib K _ vs t1 t' m1 m' hp
        rw [← h1.2, Locals.get_assign, if_pos rfl]
        exact ⟨_, set_mem_self _ _ _⟩
      · exact ih t1 t' m1 m' hv hp

/-- C8, counterexample: a ConfigMap that does not decode into its schema, followed by a
well-formed Secret. The reported failure carries the decode error alone, without a message
that names the kind or holds the document text, and the run is stopped: no bundle is
returned and the Secret is not processed. -/
theorem typed_decode_failure_stops :
    (exampleLibrary.UnmarshalTypeMeta configMapBadDoc).1.Kind = Kind.ConfigMap.label
      ∧ (exampleLibrary.UnmarshalResource Kind.ConfigMap configMapBadDoc).2
          = some "json: cannot unmarshal number into Go struct field ConfigMap.data of type map[string]string"
      ∧ NewKubernetesResources exampleLibrary freshT
          (configMapBadDoc ++ separator ++ secretDoc)
          = ⟨⟨[Failure.NoError
                "json: cannot unmarshal number into Go struct field ConfigMap.data of type map[string]string"
                none], []⟩, none⟩ := by
  decide

/-- C8, amended: a document of a supported kind `K` whose typed decode returns an error,
once the run gets to it. For the four kinds CronJob, DaemonSet, Deployment and
PersistentVolumeClaim a failure whose message contains the kind and the document text is
among the failures reported by the run, the run goes on with the documents that follow,
and a later well-formed document of a supported kind other than PodSecurityPolicy has its
name as a key of its mapping in the bundle the run returns. For the other thirteen kinds the
decode error is reported and the run is stopped: no bundle is returned. -/
theorem typed_decode_failure {ρ : Type} (lib : SchemaLibrary ρ) (t : TestingT)
    (input : String) (pre : List String) (v : String) (post : List String) (t1 : TestingT)
    (m1 : Locals ρ) (K : Kind) (e : String)
    (hsplit : Split input separator = pre ++ v :: post)
    (hreach : processDocuments lib pre t Locals.make = (t1, some m1))
    (hkind : (lib.UnmarshalTypeMeta v).1.Kind = K.label)
    (he : (lib.UnmarshalResource K v).2 = some e) :
    (K.decodesWithE = true →
        Failure.NoError e (some (failedToParseMessage K v))
            ∈ (NewKubernetesResources lib t input).t.failures
          ∧ K.label.data <:+: (failedToParseMessage K v).data
          ∧ v.data <:+: (failedToParseMessage K v).data
          ∧ NewKubernetesResources lib t input
              = finish (processDocuments lib post
                  (NoError (NoError t1 (lib.UnmarshalTypeMeta v).2 none) (some e)
                    (some (failedToParseMessage K v)))
                  (m1.assign K (lib.Name (lib.UnmarshalResource K v).1)
                    (lib.UnmarshalResource K v).1))
          ∧ ∀ (w : String) (K2 : Kind), w ∈ post → K2 ≠ Kind.PodSecurityPolicy →
              (lib.UnmarshalTypeMeta w).1.Kind = K2.label →
              (lib.UnmarshalTypeMeta w).2 = none →
              (lib.UnmarshalResource K2 w).2 = none →
              ∀ b, (NewKubernetesResources lib t input).bundle = some b →
                ∃ es r, b.mapping K2 = some es
                  ∧ (lib.Name (lib.UnmarshalResource K2 w).1, r) ∈ es)
      ∧ (K.decodesWithE = false →
          NewKubernetesResources lib t input
            = ⟨NoError (NoError t1 (lib.UnmarshalTypeMeta v).2 none) (some e) none, none⟩) := by
  have hs : switchKind (lib.UnmarshalTypeMeta v).1.Kind = Branch.typed K := by
    rw [hkind]
    exact switchKind_label K
  have hrun := run_reaches lib t input pre v post t1 m1 hsplit hreach
  have hty := processDocument_typed lib v t1 m1 K hs
  constructor
  · intro hK
    have hp := hty
    rw [typedCase_continue lib K v _ m1 hK, he] at hp
    have hgo : NewKubernetesResources lib t input
        = finish (processDocuments lib post
            (NoError (NoError t1 (lib.UnmarshalTypeMeta v).2 none) (some e)
              (some (failedToParseMessage K v)))
            (m1.assign K (lib.Name (lib.UnmarshalResource K v).1)
              (lib.UnmarshalResource K v).1)) := by
      rw [hrun, processDocuments_cons lib v post t1 _ m1 _ hp]
    refine ⟨?_, label_in_failedToParseMessage K v, text_in_failedToParseMessage K v, hgo, ?_⟩
    · rw [hrun]
      apply mem_failures_run
      rw [hp]
      exact List.mem_append_right _ (List.mem_singleton.mpr rfl)
    · intro w K2 hw hK2 hkw hmw hew b hb
      rw [hgo] at hb
      obtain ⟨m, hm, hbm⟩ := finish_bundle _ b hb
      obtain ⟨r, hr⟩ := processDocuments_appears lib w K2 hkw hmw hew post _ _ _ m hw
        (Prod.ext rfl hm)
      exact ⟨m.get K2, r, by rw [hbm, returnBundle_mapping, if_neg hK2], hr⟩
  · intro hK
    rw [typedCase_stop lib K v _ m1 e hK he] at hty
    rw [hrun, processDocuments_cons_stop lib v post t1 _ m1 hty]
    rfl

/-- C8, amended, at a CronJob that does not decode into its schema, followed by a
well-formed Secret: the failure names the kind and holds the document text, and the Secret
is in the returned bundle. -/
theorem typed_decode_failure_witness :
    Failure.NoError
        "json: cannot unmarshal number into Go struct field CronJob.spec of type v1beta1.CronJobSpec"
        (some (failedToParseMessage Kind.CronJob cronJobBadDoc))
        ∈ (NewKubernetesResources exampleLibrary freshT
            (cronJobBadDoc ++ separator ++ secretDoc)).t.failures
      ∧ (NewKubernetesResources exampleLibrary freshT
          (cronJobBadDoc ++ separator ++ secretDoc)).bundle.map (fun b => b.Secrets)
          = some (some [("sec1", ⟨"sec1", "type: Opaque"⟩)]) :=
  ⟨((typed_decode_failure exampleLibrary freshT (cronJobBadDoc ++ separator ++ secretDoc) []
      cronJobBadDoc [secretDoc] freshT Locals.make Kind.CronJob
      "json: cannot unmarshal number into Go struct field CronJob.spec of type v1beta1.CronJobSpec"
      (by decide) rfl rfl rfl).1 rfl).1,
    by decide⟩

/-- C9, counterexample: a CronJob whose `apiVersion` is a number. The discriminator decode
returns an error and still fills the kind, the document goes through the CronJob case, and
the returned bundle has an entry for it. With a ConfigMap in place of the CronJob the typed
decode error stops the run, and the Secret that follows is not processed. -/
theorem discriminator_error_accumulated :
    (exampleLibrary.UnmarshalTypeMeta cronJobNumberDoc).2
        = some "json: cannot unmarshal number into Go struct field TypeMeta.apiVersion of type string"
      ∧ (NewKubernetesResources exampleLibrary freshT cronJobNumberDoc).bundle.map
          (fun b => b.CronJobs) = some (some [("x", ⟨"x", ""⟩)])
      ∧ (exampleLibrary.UnmarshalTypeMeta configMapNumberDoc).2
        = some "json: cannot unmarshal number into Go struct field TypeMeta.apiVersion of type string"
      ∧ (NewKubernetesResources exampleLibrary freshT
          (configMapNumberDoc ++ separator ++ secretDoc)).bundle = none := by
  decide

/-- C9, amended: a document whose discriminator decode returns an error, once the run gets
to it. The error is among the failures reported by the run. The document is then dispatched
on the kind the decode left in the discriminator: when that kind is none of the seventeen
supported kinds, the local maps after the document are those before it and the run goes on
with the documents that follow; when it is a supported kind, the document goes through the
typed case of that kind like any other document. -/
theorem discriminator_error_reported {ρ : Type} (lib : SchemaLibrary ρ) (t : TestingT)
    (input : String) (pre : List String) (v : String) (post : List String) (t1 : TestingT)
    (m1 : Locals ρ) (e : String)
    (hsplit : Split input separator = pre ++ v :: post)
    (hreach : processDocuments lib pre t Locals.make = (t1, some m1))
    (herr : (lib.UnmarshalTypeMeta v).2 = some e) :
    Failure.NoError e none ∈ (NewKubernetesResources lib t input).t.failures
      ∧ ((∀ K : Kind, (lib.UnmarshalTypeMeta v).1.Kind ≠ K.label) →
          (processDocument lib v t1 m1).2 = some m1
            ∧ NewKubernetesResources lib t input
                = finish (processDocuments lib post (processDocument lib v t1 m1).1 m1))
      ∧ (∀ K : Kind, (lib.UnmarshalTypeMeta v).1.Kind = K.label →
          processDocument lib v t1 m1 = typedCase lib K v (NoError t1 (some e) none) m1) := by
  have hrun := run_reaches lib t input pre v post t1 m1 hsplit hreach
  refine ⟨?_, ?_, ?_⟩
  · rw [hrun]
    apply mem_failures_run
    apply processDocument_keeps_report
    rw [herr]
    exact List.mem_append_right _ (List.mem_singleton.mpr rfl)
  · intro hsup
    have h2 : (processDocument lib v t1 m1).2 = some m1 := by
      rcases switchKind_cases (lib.UnmarshalTypeMeta v).1.Kind with ⟨k, hk, _⟩ | ⟨_, hs⟩ | ⟨_, _, hs⟩
      · exact absurd hk (hsup k)
      · rw [processDocument_list lib v t1 m1 hs]
      · by_cases hb : (lib.UnmarshalTypeMeta v).1.Kind ≠ "" ∨ (lib.UnmarshalTypeMeta v).1.APIVersion ≠ ""
        · rw [processDocument_unknown lib v t1 m1 hs hb]
        · rw [processDocument_blank lib v t1 m1 hs hb]
    refine ⟨h2, ?_⟩
    rw [hrun, processDocuments_cons lib v post t1 (processDocument lib v t1 m1).1 m1 m1
      (Prod.ext rfl h2)]
  · intro K hK
    have hs : switchKind (lib.UnmarshalTypeMeta v).1.Kind = Branch.typed K := by
      rw [hK]
      exact switchKind_label K
    rw [processDocument_typed lib v t1 m1 K hs, herr]

/-- C9, amended, at a List whose `apiVersion` is a number, followed by a well-formed
Secret. -/
theorem discriminator_error_reported_witness :
    Failure.NoError
        "json: cannot unmarshal number into Go struct field TypeMeta.apiVersion of type string"
        none
        ∈ (NewKubernetesResources exampleLibrary freshT
            (listNumberDoc ++ separator ++ secretDoc)).t.failures
      ∧ (NewKubernetesResources exampleLibrary freshT
          (listNumberDoc ++ separator ++ secretDoc)).bundle.map (fun b => b.Secrets)
          = some (some [("sec1", ⟨"sec1", "type: Opaque"⟩)]) :=
  ⟨(discriminator_error_reported exampleLibrary freshT
      (listNumberDoc ++ separator ++ secretDoc) [] listNumberDoc [secretDoc] freshT
      Locals.make
      "json: cannot unmarshal number into Go struct field TypeMeta.apiVersion of type string"
      (by decide) rfl rfl).1,
    by decide⟩

/-! ## Splitting the rendered output -/

/-- C10, counterexample: in `"---\na"` the marker line is the first line of the input, in
`"a\n---"` it is the last line, and in `"a\n---\n---\nb"` a second marker line directly
follows the first. In each of the three inputs a document text keeps a line that is exactly
`---`. -/
theorem marker_line_kept :
    (Split "---\na" separator = ["---\na"] ∧ hasMarkerLine "---\na" = true)
      ∧ (Split "a\n---" separator = ["a\n---"] ∧ hasMarkerLine "a\n---" = true)
      ∧ (Split "a\n---\n---\nb" separator = ["a", "---\nb"]
          ∧ hasMarkerLine "---\nb" = true) := by
  decide

/-- C10, amended: the document texts are the input cut at the occurrences of the five
characters `"\n---\n"`, taken from the left without overlap. Joined with the separator, in
order, they give the input back; no document text contains the separator; and every cut is
at the first occurrence of the separator in what remained. -/
theorem Split_at_separator (input : String) :
    String.intercalate separator (Split input separator) = input
      ∧ (∀ d ∈ Split input separator, ¬ separator.data <:+: d.data)
      ∧ (∀ d ∈ (Split input separator).dropLast,
          ¬ separator.data <:+: d.data ++ separator.data.dropLast) := by
  have hd := Split_data input
  refine ⟨?_, ?_, ?_⟩
  · apply String.ext
    rw [intercalate_data, hd]
    exact splitLoop_join separator.data _ input.data
  · intro d hmem
    have hm : d.data ∈ (Split input separator).map String.data := List.mem_map_of_mem _ hmem
    rw [hd] at hm
    exact splitLoop_no_separator separator.data separator_data_ne_nil _ _ (Nat.le_refl _) _ hm
  · intro d hmem
    have hm : d.data ∈ ((Split input separator).map String.data).dropLast := by
      rw [← List.map_dropLast]
      exact List.mem_map_of_mem _ hmem
    rw [hd] at hm
    exact splitLoop_first separator.data separator_data_ne_nil _ _ _ hm

end helmtestutil
